import Mathlib

/-!
Verification development for the BiciMad repository (bicimad/bicimad.py and
bicimad/urlemt.py): a shallow embedding of its data model and operations,
together with theorems settling the specification claims about them.

A pandas DataFrame cell is either missing (NaN/NaT), a numeric value
(float64 columns, modelled exactly as rationals), or a string (object
columns).  The loaded trip table is restricted to 15 projected columns of
which unlock_date is consumed as the index (index_col="unlock_date" in
get_data), so a row of the in-memory table has the remaining 14 fields.
-/

inductive Cell where
  | null : Cell
  | num : ℚ → Cell
  | str : String → Cell
deriving DecidableEq

inductive Col where
  | idBike | fleet | trip_minutes | geolocation_unlock | address_unlock
  | locktype | unlocktype | geolocation_lock | address_lock | lock_date
  | station_unlock | unlock_station_name | station_lock | lock_station_name
deriving DecidableEq

def Row : Type := Col → Cell

def allCols : List Col :=
  [Col.idBike, Col.fleet, Col.trip_minutes, Col.geolocation_unlock,
   Col.address_unlock, Col.locktype, Col.unlocktype, Col.geolocation_lock,
   Col.address_lock, Col.lock_date, Col.station_unlock,
   Col.unlock_station_name, Col.station_lock, Col.lock_station_name]

/-- A row all of whose fields are null: the rows removed by
dropna(how="all"). -/
def rowAllNull (r : Row) : Bool :=
  allCols.all fun c => decide (r c = Cell.null)

/-- Python int(x) on a float/rational: truncation toward zero. -/
def ratTrunc (q : ℚ) : ℤ := Int.tdiv q.num q.den

/-- Python re.sub("[a-zA-Z]", "", s): remove the ASCII letters from s
(in Lean, Char.isAlpha is exactly the class [a-zA-Z]). -/
def stripAlpha (s : String) : String :=
  String.mk (s.data.filter fun c => !c.isAlpha)

/-- Embeds the per-value normalisation lambda of BiciMad.clean:
str(int(x)) if pd.notna(x) and isinstance(x, (int, float)) else
re.sub("[a-zA-Z]", "", str(x)) if pd.notna(x) else x. -/
def cleanCell : Cell → Cell
  | Cell.null => Cell.null
  | Cell.num q => Cell.str (toString (ratTrunc q))
  | Cell.str s => Cell.str (stripAlpha s)

/-- The four columns normalised by BiciMad.clean, in the order of the
for-loop of the source. -/
def targetCols : List Col :=
  [Col.fleet, Col.idBike, Col.station_lock, Col.station_unlock]

/-- Embeds BiciMad.clean: dropna(how="all") followed by mapping the
normalisation lambda over each of the four identifier columns in turn. -/
def clean (rows : List Row) : List Row :=
  targetCols.foldl
    (fun df c => df.map fun r => Function.update r c (cleanCell (r c)))
    (rows.filter fun r => !rowAllNull r)

/-- Row-at-once restatement of the per-column loop of clean, used to state
the specification claims. -/
def specCleanRow (r : Row) : Row :=
  fun c => if c ∈ targetCols then cleanCell (r c) else r c

/-- Embeds BiciMad.total_uses: len(self.__data). -/
def total_uses (rows : List Row) : Nat := rows.length

/-- Numeric reading of a cell as used by the pandas Series.sum of a float64
column: missing values are skipped, i.e. contribute zero. -/
def cellNum : Cell → ℚ
  | Cell.num q => q
  | _ => 0

/-- Embeds BiciMad.total_time: the trip_minutes column summed and divided
by 60. -/
def total_time (rows : List Row) : ℚ :=
  (rows.map fun r => cellNum (r Col.trip_minutes)).sum / 60

/-- The non-null (numeric) trip_minutes values of a table, used to state
claim C9. -/
def tripMinutesValues (rows : List Row) : List ℚ :=
  rows.filterMap fun r =>
    match r Col.trip_minutes with
    | Cell.num q => some q
    | _ => none

/-- The group keys of df.groupby on the pair (station_unlock,
address_unlock): one key pair per row, with rows whose key contains a
missing value dropped (pandas groupby default dropna=True). -/
def groupPairs (rows : List Row) : List (Cell × Cell) :=
  rows.filterMap fun r =>
    if r Col.station_unlock = Cell.null ∨ r Col.address_unlock = Cell.null then none
    else some (r Col.station_unlock, r Col.address_unlock)

/-- The maximum of the grouped sizes counts.max() of the pair grouping
(zero when there are no groups, in which case it is never used: the filter
below is then over an empty key list). -/
def maxPairCount (rows : List Row) : Nat :=
  (((groupPairs rows).dedup).map fun k => (groupPairs rows).count k).foldr max 0

/-- Embeds BiciMad.most_popular_stations: the set of address_unlock level
values of the groups whose size equals counts.max(). -/
def most_popular_stations (rows : List Row) : Finset Cell :=
  ((((groupPairs rows).dedup).filter
      fun k => (groupPairs rows).count k == maxPairCount rows).map Prod.snd).toFinset

/-- The group keys of df.groupby on station_unlock alone (missing keys
dropped). -/
def stationKeys (rows : List Row) : List Cell :=
  rows.filterMap fun r =>
    if r Col.station_unlock = Cell.null then none else some (r Col.station_unlock)

/-- Embeds BiciMad.usage_from_most_popular_station:
int(df.groupby("station_unlock").size().max()).  When the table has no
non-null station_unlock value the grouped size series is empty, its max()
is NaN, and int(NaN) raises ValueError; that failure is modelled as none. -/
def usage_from_most_popular_station (rows : List Row) : Option Nat :=
  let keys := stationKeys rows
  ((keys.dedup).map fun k => keys.count k).max?

/-!
The test fixture FAKE_CSV of tests/test_bicimad.py, as loaded by
BiciMad.get_data via pd.read_csv with sep=";", usecols restricted to the 15
columns, index_col="unlock_date" and parse_dates on unlock_date/lock_date.

Column dtypes follow pandas inference: idBike, fleet, trip_minutes and
station_lock contain only numbers (or empty fields) and load as float64;
station_unlock contains the entries 111a and 112b, so that whole column
loads as strings and its fourth value is the STRING "111.0".  unlock_date
is consumed as the index and is not a field of the rows.  The apostrophes
and braces appearing verbatim in the CSV text are built with Char.ofNat.
-/

/-- One apostrophe character, as a string. -/
def SQ : String := (Char.ofNat 39).toString

/-- Left brace, as a string. -/
def LB : String := (Char.ofNat 123).toString

/-- Right brace, as a string. -/
def RB : String := (Char.ofNat 125).toString

/-- A string wrapped in single quotes, as the CSV address fields are. -/
def q1 (s : String) : String := SQ ++ s ++ SQ

/-- A geolocation JSON-ish value of the CSV. -/
def geoPoint (coords : String) : String :=
  LB ++ q1 "type" ++ ": " ++ q1 "Point" ++ ", " ++ q1 "coordinates" ++
    ": [" ++ coords ++ "]" ++ RB

def fakeRow1 : Row := fun c =>
  match c with
  | Col.idBike => Cell.num (mkRat 6623 1)
  | Col.fleet => Cell.num (mkRat 1 1)
  | Col.trip_minutes => Cell.num (mkRat 780 100)
  | Col.geolocation_unlock => Cell.str (geoPoint "-3.6877227, 40.4251002")
  | Col.address_unlock => Cell.str (q1 "Calle Serrano nº 34")
  | Col.locktype => Cell.str "STATION"
  | Col.unlocktype => Cell.str "STATION"
  | Col.geolocation_lock => Cell.str (geoPoint "-3.7020842, 40.4239757")
  | Col.address_lock => Cell.str (q1 "Plaza de San Ildefonso")
  | Col.lock_date => Cell.str "2022-05-01 00:33:17"
  | Col.station_unlock => Cell.str "111a"
  | Col.unlock_station_name => Cell.str "106a - Colón A"
  | Col.station_lock => Cell.num (mkRat 59 1)
  | Col.lock_station_name => Cell.str "55 - Plaza de San Ildefonso"

def fakeRow2 : Row := fun c =>
  match c with
  | Col.idBike => Cell.num (mkRat 6031 1)
  | Col.fleet => Cell.num (mkRat 1 1)
  | Col.trip_minutes => Cell.num (mkRat 2028 100)
  | Col.geolocation_unlock => Cell.str (geoPoint "-3.6877227, 40.4251002")
  | Col.address_unlock => Cell.str (q1 "Calle Serrano nº 32")
  | Col.locktype => Cell.str "STATION"
  | Col.unlocktype => Cell.str "STATION"
  | Col.geolocation_lock => Cell.str (geoPoint "-3.7032777, 40.4535")
  | Col.address_lock => Cell.str (q1 "Calle Navarra nº 1")
  | Col.lock_date => Cell.str "2022-05-01 00:45:50"
  | Col.station_unlock => Cell.str "112"
  | Col.unlock_station_name => Cell.str "106a - Colón A"
  | Col.station_lock => Cell.num (mkRat 213 1)
  | Col.lock_station_name => Cell.str "205 - Estrecho"

def fakeRow3 : Row := fun c =>
  match c with
  | Col.idBike => Cell.num (mkRat 6456 1)
  | Col.fleet => Cell.num (mkRat 1 1)
  | Col.trip_minutes => Cell.num (mkRat 678 100)
  | Col.geolocation_unlock => Cell.str (geoPoint "-3.6877227, 40.4251002")
  | Col.address_unlock => Cell.str (q1 "Calle Serrano nº 34")
  | Col.locktype => Cell.str "STATION"
  | Col.unlocktype => Cell.str "STATION"
  | Col.geolocation_lock => Cell.str (geoPoint "-3.70239, 40.42059")
  | Col.address_lock => Cell.str (q1 "Calle Desengaño nº 1")
  | Col.lock_date => Cell.str "2022-05-01 03:00:13"
  | Col.station_unlock => Cell.str "112b"
  | Col.unlock_station_name => Cell.str "106a - Colón A"
  | Col.station_lock => Cell.num (mkRat 219 1)
  | Col.lock_station_name => Cell.str "211 - Desengaño"

def fakeRow4 : Row := fun c =>
  match c with
  | Col.idBike => Cell.num (mkRat 876 1)
  | Col.fleet => Cell.num (mkRat 1 1)
  | Col.trip_minutes => Cell.num (mkRat 163 100)
  | Col.geolocation_unlock => Cell.str (geoPoint "-3.6877227, 40.4251002")
  | Col.address_unlock => Cell.str (q1 "Calle Serrano nº 33")
  | Col.locktype => Cell.str "STATION"
  | Col.unlocktype => Cell.str "STATION"
  | Col.geolocation_lock => Cell.str (geoPoint "-3.6877227, 40.4251002")
  | Col.address_lock => Cell.str (q1 "Calle Serrano nº 34")
  | Col.lock_date => Cell.str "2022-05-01 06:37:59"
  | Col.station_unlock => Cell.str "111.0"
  | Col.unlock_station_name => Cell.str "106a - Colón A"
  | Col.station_lock => Cell.num (mkRat 111 1)
  | Col.lock_station_name => Cell.str "106a - Colón A"

/-- The all-delimiter line of the fixture (;;;;;;;;;;;;;;): every field
missing. -/
def fakeRow5 : Row := fun _ => Cell.null

def fake_csv_rows : List Row := [fakeRow1, fakeRow2, fakeRow3, fakeRow4, fakeRow5]

/-- A row of a three-row table whose three groups are distinct and tie at
the maximal count 1 (used for claims C3 and C4). -/
def tieRow (s a : String) : Row := fun c =>
  match c with
  | Col.station_unlock => Cell.str s
  | Col.address_unlock => Cell.str a
  | _ => Cell.null

def tieRows : List Row :=
  [tieRow "1" "addrA", tieRow "2" "addrB", tieRow "3" "addrC"]

/-- A row whose every field, in particular station_unlock, is missing. -/
def nullStationRow : Row := fun _ => Cell.null

/-!
Embedding of UrlEMT.get_url (bicimad/urlemt.py).  The set of cached valid
links (self._valid_urls, computed once by select_valid_urls) is modelled as
a list of strings, the iteration order of the Python set being unspecified.
-/

/-- Python calendar.month_name under the default (C/English) locale;
index 0 is the empty string. -/
def month_name (m : Int) : String :=
  ["", "January", "February", "March", "April", "May", "June", "July",
   "August", "September", "October", "November", "December"].getD m.toNat ""

/-- Python format 02d (zero-padded) for the non-negative values it is
applied to. -/
def pad2 (n : Int) : String :=
  if n < 10 then "0" ++ toString n else toString n

/-- Containment of a contiguous run: pat occurs inside the second list. -/
def listInfixOf (pat : List Char) : List Char → Bool
  | [] => pat.isEmpty
  | c :: tl => pat.isPrefixOf (c :: tl) || listInfixOf pat tl

/-- Python substring test (pattern in url). -/
def strContains (s pat : String) : Bool :=
  listInfixOf pat.data s.data

/-- The two kinds of ValueError raised by UrlEMT.get_url, with their
message strings. -/
inductive UrlError where
  | invalidArgument : String → UrlError
  | notFound : String → UrlError
deriving DecidableEq

instance : DecidableEq (Except UrlError String) := fun a b =>
  match a, b with
  | Except.ok x, Except.ok y => decidable_of_iff (x = y) (by simp)
  | Except.error x, Except.error y => decidable_of_iff (x = y) (by simp)
  | Except.ok _, Except.error _ => isFalse (by simp)
  | Except.error _, Except.ok _ => isFalse (by simp)

/-- The expected filename substring trips_YY_MM_MonthName-csv.aspx built
from the zero-padded year and month and the full month name. -/
def urlPattern (month year : Int) : String :=
  "trips_" ++ pad2 year ++ "_" ++ pad2 month ++ "_" ++ month_name month ++
    "-csv.aspx"

/-- Embeds UrlEMT.get_url: validate month and year, then return the first
cached link containing the expected filename substring, else a
NotFound-kind error naming the month and year. -/
def get_url (validUrls : List String) (month year : Int) :
    Except UrlError String :=
  if ¬ (1 ≤ month ∧ month ≤ 12) then
    Except.error (UrlError.invalidArgument "Invalid month. Must be between 1 and 12.")
  else if ¬ (21 ≤ year ∧ year ≤ 23) then
    Except.error (UrlError.invalidArgument "Invalid year. Must be between 21 and 23.")
  else
    match validUrls.find? (fun url => strContains url (urlPattern month year)) with
    | some url => Except.ok url
    | none => Except.error (UrlError.notFound
        ("No valid link found for " ++ pad2 month ++ "/" ++ pad2 year))

/-- A link of the shape select_valid_urls caches (its filter regex only
searches for the dated pattern, so trailing URL text survives the filter),
which contains the expected substring but does not end with it. -/
def trailingUrl : String :=
  "https://opendata.emtmadrid.es/Datos-estaticos/Datos-generales-(1)/trips_21_01_January-csv.aspx?download"

/-!
Embedding of UrlEMT.get_links (bicimad/urlemt.py), i.e. of re.findall with
the pattern: the literal href= followed by an optional quote ([\x27"]?) and
a captured nonempty run ([^\x27" >]+) of characters outside the class made
of the two quotes, the space character and the greater-than sign.
re.findall performs a left-to-right, non-overlapping scan.  If the optional
quote is consumed but no value character follows, backtracking drops the
quote and the match still fails, because the value would then have to start
at the quote character itself.
-/

/-- The apostrophe character. -/
def aposC : Char := Char.ofNat 39

/-- The negated character class of the href pattern: everything but the two
quotes, the space character and the greater-than sign. -/
def hrefAllowed (c : Char) : Bool :=
  !(c == aposC || c == '"' || c == ' ' || c == '>')

/-- The literal marker of the pattern. -/
def hrefMarker : List Char := ['h', 'r', 'e', 'f', '=']

/-- One attempted match of the href pattern at the head of the input: on
success, the captured value and the remainder of the input after the
match. -/
def tryHref (l : List Char) : Option (List Char × List Char) :=
  if hrefMarker.isPrefixOf l then
    match l.drop 5 with
    | [] => none
    | c :: cs =>
      let r2 := if c == aposC || c == '"' then cs else c :: cs
      let v := r2.takeWhile hrefAllowed
      if v.isEmpty then none else some (v, r2.dropWhile hrefAllowed)
  else none

/-- Fuel-driven scanning loop of re.findall (one unit of fuel per input
position); scanHref passes enough fuel for the whole input. -/
def scanHrefCore : Nat → List Char → List (List Char)
  | 0, _ => []
  | _ + 1, [] => []
  | fuel + 1, c :: cs =>
    match tryHref (c :: cs) with
    | some (v, rest) => v :: scanHrefCore fuel rest
    | none => scanHrefCore fuel cs

def scanHref (l : List Char) : List (List Char) :=
  scanHrefCore l.length l

/-- Embeds UrlEMT.get_links; the Python set it returns is reflected by
get_links_set below. -/
def get_links (html : String) : List String :=
  (scanHref html.data).map fun l => String.mk l

def get_links_set (html : String) : Finset String :=
  (get_links html).toFinset

/-- Occurrence predicate: the value occurs in the input as an href value,
i.e. after some prefix there is the literal marker, an optional quote, then
the value, a nonempty run of allowed characters that is maximal (the
remainder is empty or starts with a disallowed character). -/
def hrefOccur (html v : List Char) : Prop :=
  ∃ pre q rest : List Char,
    (q = [] ∨ q = [aposC] ∨ q = ['"'])
    ∧ v ≠ []
    ∧ (∀ c ∈ v, hrefAllowed c = true)
    ∧ (rest = [] ∨ ∃ c cs, rest = c :: cs ∧ hrefAllowed c = false)
    ∧ html = pre ++ hrefMarker ++ q ++ v ++ rest

/-!
Theorems.  Helper lemmas come first; each claim of the specification is
then settled by one named theorem (with a witness theorem when the claim
theorem carries hypotheses, and a counterexample theorem where the claim as
stated fails on the code).
-/

theorem clean_eq_map (rows : List Row) :
    clean rows = (rows.filter fun r => !rowAllNull r).map specCleanRow := by
  show List.map _ (List.map _ (List.map _ (List.map _ _))) = _
  rw [List.map_map, List.map_map, List.map_map]
  congr 1
  funext r c
  cases c <;> rfl

theorem digitChar_not_alpha {n : Nat} (h : n < 10) :
    (Nat.digitChar n).isAlpha = false := by
  interval_cases n <;> decide

theorem toDigitsCore_not_alpha :
    ∀ (fuel n : Nat) (ds : List Char),
      (∀ c ∈ ds, c.isAlpha = false) →
      ∀ c ∈ Nat.toDigitsCore 10 fuel n ds, c.isAlpha = false := by
  intro fuel
  induction fuel with
  | zero =>
    intro n ds h
    simpa [Nat.toDigitsCore] using h
  | succ f ih =>
    intro n ds h c hc
    rw [Nat.toDigitsCore] at hc
    by_cases h10 : n / 10 = 0
    · simp only [h10, if_pos] at hc
      rcases List.mem_cons.1 hc with rfl | hmem
      · exact digitChar_not_alpha (Nat.mod_lt _ (by norm_num))
      · exact h _ hmem
    · simp only [h10, if_neg, not_false_iff] at hc
      refine ih _ _ ?_ _ hc
      intro d hd
      rcases List.mem_cons.1 hd with rfl | hmem
      · exact digitChar_not_alpha (Nat.mod_lt _ (by norm_num))
      · exact h _ hmem

theorem natRepr_not_alpha (n : Nat) :
    ∀ c ∈ (Nat.repr n).data, c.isAlpha = false := by
  intro c hc
  exact toDigitsCore_not_alpha _ _ _ (by simp) _ hc

theorem intStr_not_alpha (n : Int) :
    ∀ c ∈ (toString n).data, c.isAlpha = false := by
  cases n with
  | ofNat m =>
    intro c hc
    exact natRepr_not_alpha m c hc
  | negSucc m =>
    intro c hc
    have hrepr : toString (Int.negSucc m) = "-" ++ Nat.repr (m + 1) := rfl
    rw [hrepr, String.data_append] at hc
    rcases List.mem_append.1 hc with hc | hc
    · rcases List.mem_singleton.1 hc with rfl
      decide
    · exact natRepr_not_alpha _ c hc

theorem stripAlpha_intStr (n : Int) : stripAlpha (toString n) = toString n := by
  unfold stripAlpha
  rw [List.filter_eq_self.2]
  · intro c hc
    simp [intStr_not_alpha n c hc]

theorem stripAlpha_idem (s : String) : stripAlpha (stripAlpha s) = stripAlpha s := by
  unfold stripAlpha
  simp [List.filter_filter]

theorem cleanCell_idem (x : Cell) : cleanCell (cleanCell x) = cleanCell x := by
  cases x with
  | null => rfl
  | num q => simp [cleanCell, stripAlpha_intStr]
  | str s => simp [cleanCell, stripAlpha_idem]

theorem cleanCell_eq_null_iff (x : Cell) : cleanCell x = Cell.null ↔ x = Cell.null := by
  cases x <;> simp [cleanCell]

theorem specCleanRow_null_iff (r : Row) (c : Col) :
    specCleanRow r c = Cell.null ↔ r c = Cell.null := by
  by_cases h : c ∈ targetCols
  · simp [specCleanRow, h, cleanCell_eq_null_iff]
  · simp [specCleanRow, h]

theorem rowAllNull_specCleanRow (r : Row) :
    rowAllNull (specCleanRow r) = rowAllNull r := by
  rw [Bool.eq_iff_iff]
  simp only [rowAllNull, List.all_eq_true, decide_eq_true_eq, specCleanRow_null_iff]

theorem specCleanRow_idem (r : Row) :
    specCleanRow (specCleanRow r) = specCleanRow r := by
  funext c
  by_cases h : c ∈ targetCols <;> simp [specCleanRow, h, cleanCell_idem]

/-- Claim C1: clean first drops exactly the all-null rows, then normalises
the four identifier columns value-wise (numeric values to the string of
their integer truncation, other non-null values to their string form with
the alphabetic characters removed, nulls unchanged), leaving all other
columns and rows untouched; afterwards no row is all-null. -/
theorem clean_spec (rows : List Row) :
    clean rows = (rows.filter fun r => !rowAllNull r).map specCleanRow
  ∧ (∀ r ∈ clean rows, rowAllNull r = false)
  ∧ (∀ (r : Row) (c : Col), c ∉ targetCols → specCleanRow r c = r c)
  ∧ (∀ (r : Row) (c : Col), c ∈ targetCols →
        (r c = Cell.null → specCleanRow r c = Cell.null)
      ∧ (∀ q : ℚ, r c = Cell.num q →
          specCleanRow r c = Cell.str (toString (ratTrunc q)))
      ∧ (∀ s : String, r c = Cell.str s →
          specCleanRow r c = Cell.str (stripAlpha s))) := by
  refine ⟨clean_eq_map rows, ?_, ?_, ?_⟩
  · intro r hr
    rw [clean_eq_map] at hr
    rcases List.mem_map.1 hr with ⟨r₀, hr₀, rfl⟩
    have h₀ := (List.mem_filter.1 hr₀).2
    rw [rowAllNull_specCleanRow]
    simpa using h₀
  · intro r c hc
    simp [specCleanRow, hc]
  · intro r c hc
    refine ⟨?_, ?_, ?_⟩
    · intro hnull
      simp [specCleanRow, hc, hnull, cleanCell]
    · intro q hq
      simp [specCleanRow, hc, hq, cleanCell]
    · intro s hs
      simp [specCleanRow, hc, hs, cleanCell]

/-- Witness for C1: the theorem applied to the fixture, at a column outside
the normalised four and at the station_unlock value "111a" of its first
row. -/
theorem clean_spec_witness :
    specCleanRow fakeRow1 Col.locktype = fakeRow1 Col.locktype
  ∧ specCleanRow fakeRow1 Col.station_unlock = Cell.str "111" :=
  ⟨(clean_spec fake_csv_rows).2.2.1 fakeRow1 Col.locktype (by decide),
   (((clean_spec fake_csv_rows).2.2.2 fakeRow1 Col.station_unlock
      (by decide)).2.2 "111a" rfl).trans (by decide)⟩

/-- Counterexample to claim C2 as stated: after clean only ONE row (not
two) carries the unlock station identifier "111".  The station_unlock
column is loaded as strings (it contains the entries 111a and 112b), so its
value "111.0" is the string "111.0", which the letters-only substitution
maps to itself rather than to "111". -/
theorem fixture_station111_counterexample :
    ((clean fake_csv_rows).countP
        fun r => decide (r Col.station_unlock = Cell.str "111")) = 1
  ∧ cleanCell (Cell.str "111.0") = Cell.str "111.0" := by
  constructor
  · decide
  · decide

/-- Claim C2 (amended): on the fixture, total_uses is 5 before and 4 after
clean; after clean the two rows sharing an unlock station identifier are
the "112" ones (from "112" and "112b"), while "111a" normalises to "111"
and the string "111.0" stays itself; the maximal station usage is 2. -/
theorem fixture_end_to_end :
    total_uses fake_csv_rows = 5
  ∧ total_uses (clean fake_csv_rows) = 4
  ∧ ((clean fake_csv_rows).map fun r => r Col.station_unlock) =
      [Cell.str "111", Cell.str "112", Cell.str "112", Cell.str "111.0"]
  ∧ ((clean fake_csv_rows).countP
        fun r => decide (r Col.station_unlock = Cell.str "112")) = 2
  ∧ usage_from_most_popular_station (clean fake_csv_rows) = some 2 := by
  refine ⟨by decide, by decide, by decide, by decide, by decide⟩

/-- Claim C3: membership in most_popular_stations is exactly being the
address component of a group of the pair grouping (station_unlock,
address_unlock) whose size equals the maximum group size. -/
theorem most_popular_stations_spec (rows : List Row) (_hne : rows ≠ [])
    (a : Cell) :
    a ∈ most_popular_stations rows ↔
      ∃ s : Cell, (s, a) ∈ groupPairs rows ∧
        (groupPairs rows).count (s, a) = maxPairCount rows := by
  unfold most_popular_stations
  simp only [List.mem_toFinset, List.mem_map, List.mem_filter, List.mem_dedup,
    beq_iff_eq]
  constructor
  · rintro ⟨⟨s, a'⟩, ⟨hmem, hcnt⟩, rfl⟩
    exact ⟨s, hmem, hcnt⟩
  · rintro ⟨s, hmem, hcnt⟩
    exact ⟨(s, a), ⟨hmem, hcnt⟩, rfl⟩

/-- Witness for C3: on a table with three distinct (id, address) groups
each of maximal count 1, the characterisation applies and all three
addresses are returned. -/
theorem most_popular_stations_spec_witness :
    (Cell.str "addrA" ∈ most_popular_stations tieRows ↔
      ∃ s : Cell, (s, Cell.str "addrA") ∈ groupPairs tieRows ∧
        (groupPairs tieRows).count (s, Cell.str "addrA") = maxPairCount tieRows)
  ∧ most_popular_stations tieRows =
      {Cell.str "addrA", Cell.str "addrB", Cell.str "addrC"} :=
  ⟨most_popular_stations_spec tieRows (by simp [tieRows]) (Cell.str "addrA"),
   by decide⟩

theorem mem_stationKeys_ne_null (rows : List Row) (k : Cell)
    (h : k ∈ stationKeys rows) : k ≠ Cell.null := by
  rcases List.mem_filterMap.1 h with ⟨r, _, hr⟩
  by_cases hnull : r Col.station_unlock = Cell.null
  · simp [hnull] at hr
  · simp only [hnull, if_neg, not_false_iff, Option.some.injEq] at hr
    rw [← hr]
    exact hnull

theorem count_stationKeys (rows : List Row) (k : Cell) (hk : k ≠ Cell.null) :
    (stationKeys rows).count k =
      rows.countP fun r => decide (r Col.station_unlock = k) := by
  induction rows with
  | nil => rfl
  | cons r rs ih =>
    rw [List.countP_cons]
    by_cases h : r Col.station_unlock = Cell.null
    · have hkey : stationKeys (r :: rs) = stationKeys rs := by
        simp [stationKeys, List.filterMap_cons, h]
      rw [hkey, ih]
      have : decide (r Col.station_unlock = k) = false := by
        simp [h, Ne.symm hk]
      simp [this]
    · have hkey : stationKeys (r :: rs) =
          r Col.station_unlock :: stationKeys rs := by
        simp [stationKeys, List.filterMap_cons, h]
      rw [hkey, List.count_cons, ih]
      by_cases he : r Col.station_unlock = k <;> simp [he]

/-- Claim C4 (amended): on a table with at least one non-null
station_unlock value, usage_from_most_popular_station returns the maximum
row count over the groups of the station-only grouping, and its value
depends only on the station_unlock column (in particular it is independent
of the pair grouping used by most_popular_stations). -/
theorem usage_spec (rows : List Row)
    (h : ∃ r ∈ rows, r Col.station_unlock ≠ Cell.null) :
    ∃ m : Nat, usage_from_most_popular_station rows = some m
      ∧ (∃ k ∈ (stationKeys rows).dedup,
            rows.countP (fun r => decide (r Col.station_unlock = k)) = m)
      ∧ (∀ k ∈ (stationKeys rows).dedup,
            rows.countP (fun r => decide (r Col.station_unlock = k)) ≤ m)
      ∧ ∀ rows' : List Row, stationKeys rows' = stationKeys rows →
          usage_from_most_popular_station rows' =
            usage_from_most_popular_station rows := by
  rcases h with ⟨r, hr, hs⟩
  have hmem : r Col.station_unlock ∈ stationKeys rows :=
    List.mem_filterMap.2 ⟨r, hr, by simp [hs]⟩
  have hcnt : (stationKeys rows).count (r Col.station_unlock) ∈
      ((stationKeys rows).dedup.map fun k => (stationKeys rows).count k) :=
    List.mem_map.2 ⟨r Col.station_unlock, List.mem_dedup.2 hmem, rfl⟩
  have hsome := List.isSome_max?_of_mem hcnt
  rcases Option.isSome_iff_exists.1 hsome with ⟨m, hm⟩
  have hiff := List.max?_eq_some_iff'.1 hm
  refine ⟨m, hm, ?_, ?_, ?_⟩
  · rcases List.mem_map.1 hiff.1 with ⟨k, hk, hkm⟩
    refine ⟨k, hk, ?_⟩
    rw [← count_stationKeys rows k
      (mem_stationKeys_ne_null rows k (List.mem_dedup.1 hk))]
    exact hkm
  · intro k hk
    rw [← count_stationKeys rows k
      (mem_stationKeys_ne_null rows k (List.mem_dedup.1 hk))]
    exact hiff.2 _ (List.mem_map.2 ⟨k, hk, rfl⟩)
  · intro rows' hrows'
    unfold usage_from_most_popular_station
    rw [hrows']

/-- Witness for C4: the amended theorem applied to the three-row tie
table. -/
theorem usage_spec_witness :
    ∃ m : Nat, usage_from_most_popular_station tieRows = some m
      ∧ (∃ k ∈ (stationKeys tieRows).dedup,
            tieRows.countP (fun r => decide (r Col.station_unlock = k)) = m)
      ∧ (∀ k ∈ (stationKeys tieRows).dedup,
            tieRows.countP (fun r => decide (r Col.station_unlock = k)) ≤ m)
      ∧ ∀ rows' : List Row, stationKeys rows' = stationKeys tieRows →
          usage_from_most_popular_station rows' =
            usage_from_most_popular_station tieRows :=
  usage_spec tieRows (by decide)

/-- Counterexample to claim C4 as stated: a one-row table is non-empty, yet
when its only station_unlock value is missing,
usage_from_most_popular_station does not return a count (the grouped size
series is empty, so int(NaN) raises; modelled as none). -/
theorem usage_nonempty_counterexample :
    ([nullStationRow] : List Row) ≠ []
  ∧ usage_from_most_popular_station [nullStationRow] = none :=
  ⟨by simp, rfl⟩

/-- Claim C6: out-of-range months, and out-of-range years for in-range
months, produce the InvalidArgument-kind errors with the exact messages of
the source, whatever the cached link set is (no network access, no search
of the cache). -/
theorem get_url_invalid_args (validUrls : List String) (month year : Int) :
    (¬ (1 ≤ month ∧ month ≤ 12) →
      get_url validUrls month year =
        Except.error (UrlError.invalidArgument "Invalid month. Must be between 1 and 12."))
  ∧ ((1 ≤ month ∧ month ≤ 12) → ¬ (21 ≤ year ∧ year ≤ 23) →
      get_url validUrls month year =
        Except.error (UrlError.invalidArgument "Invalid year. Must be between 21 and 23.")) := by
  constructor
  · intro h
    simp [get_url, h]
  · intro hm hy
    simp [get_url, hm, hy]

/-- Witness for C6: month 13 and year 24 are rejected with the two
messages. -/
theorem get_url_invalid_args_witness :
    get_url ["x"] 13 21 =
      Except.error (UrlError.invalidArgument "Invalid month. Must be between 1 and 12.")
  ∧ get_url ["x"] 12 24 =
      Except.error (UrlError.invalidArgument "Invalid year. Must be between 21 and 23.") :=
  ⟨(get_url_invalid_args ["x"] 13 21).1 (by decide),
   (get_url_invalid_args ["x"] 12 24).2 (by decide) (by decide)⟩

/-- Claim C5 (amended): for valid month/year, if some cached link contains
the expected filename substring then get_url returns a cached link
containing it (the source merely tests substring containment, not that the
URL ends with it), and if no cached link contains it the result is the
NotFound-kind error naming the month and year. -/
theorem get_url_found_spec (validUrls : List String) (month year : Int)
    (hm : 1 ≤ month ∧ month ≤ 12) (hy : 21 ≤ year ∧ year ≤ 23) :
    ((∃ u ∈ validUrls, strContains u (urlPattern month year) = true) →
      ∃ u, get_url validUrls month year = Except.ok u ∧ u ∈ validUrls ∧
        strContains u (urlPattern month year) = true)
  ∧ ((∀ u ∈ validUrls, strContains u (urlPattern month year) = false) →
      get_url validUrls month year = Except.error (UrlError.notFound
        ("No valid link found for " ++ pad2 month ++ "/" ++ pad2 year))) := by
  constructor
  · intro hex
    have hsome : (validUrls.find?
        fun url => strContains url (urlPattern month year)).isSome := by
      rw [List.find?_isSome]
      rcases hex with ⟨u, hu, hc⟩
      exact ⟨u, hu, hc⟩
    rcases Option.isSome_iff_exists.1 hsome with ⟨u, hu⟩
    have hp := List.find?_some hu
    refine ⟨u, ?_, List.mem_of_find?_eq_some hu, hp⟩
    simp [get_url, hm, hy, hu]
  · intro hall
    have hnone : validUrls.find?
        (fun url => strContains url (urlPattern month year)) = none := by
      rw [List.find?_eq_none]
      intro u hu
      simp [hall u hu]
    simp [get_url, hm, hy, hnone]

/-- Witness for C5: a present January 2021 link is found and returned; an
absent one produces the NotFound error naming 01/21. -/
theorem get_url_found_spec_witness :
    (∃ u, get_url ["trips_21_01_January-csv.aspx"] 1 21 = Except.ok u ∧
        u ∈ ["trips_21_01_January-csv.aspx"] ∧
        strContains u (urlPattern 1 21) = true)
  ∧ get_url ["other.aspx"] 1 21 = Except.error (UrlError.notFound
      ("No valid link found for " ++ pad2 1 ++ "/" ++ pad2 21)) :=
  ⟨(get_url_found_spec ["trips_21_01_January-csv.aspx"] 1 21
      (by decide) (by decide)).1 (by decide),
   (get_url_found_spec ["other.aspx"] 1 21 (by decide) (by decide)).2
      (by decide)⟩

/-- Counterexample to claim C5 as stated: get_url returns trailingUrl,
which contains but does not end with the expected filename suffix. -/
theorem get_url_endswith_counterexample :
    get_url [trailingUrl] 1 21 = Except.ok trailingUrl
  ∧ ("trips_21_01_January-csv.aspx".data.isSuffixOf trailingUrl.data) = false := by
  constructor
  · decide
  · decide

/-- Claim C7: clean is idempotent — cleaning an already cleaned table
removes no rows and re-normalises every value to itself. -/
theorem clean_idempotent (rows : List Row) : clean (clean rows) = clean rows := by
  rw [clean_eq_map, clean_eq_map]
  rw [List.filter_map]
  have hp : ((fun r => !rowAllNull r) ∘ specCleanRow) = fun r => !rowAllNull r := by
    funext r
    simp [Function.comp, rowAllNull_specCleanRow]
  rw [hp, List.filter_filter]
  simp only [Bool.and_self]
  rw [List.map_map]
  refine congrArg (fun f => List.map f _) ?_
  funext r
  exact specCleanRow_idem r

theorem takeWhile_all_append (p : Char → Bool) (l₁ l₂ : List Char)
    (h : ∀ c ∈ l₁, p c = true) :
    (l₁ ++ l₂).takeWhile p = l₁ ++ l₂.takeWhile p := by
  induction l₁ with
  | nil => simp
  | cons c cs ih =>
    have hc := h c (List.mem_cons_self c cs)
    rw [List.cons_append, List.takeWhile_cons, hc]
    simp only [if_pos]
    rw [ih fun d hd => h d (List.mem_cons_of_mem c hd)]
    rfl

theorem dropWhile_all_append (p : Char → Bool) (l₁ l₂ : List Char)
    (h : ∀ c ∈ l₁, p c = true) :
    (l₁ ++ l₂).dropWhile p = l₂.dropWhile p := by
  induction l₁ with
  | nil => simp
  | cons c cs ih =>
    have hc := h c (List.mem_cons_self c cs)
    rw [List.cons_append, List.dropWhile_cons, hc]
    simp only [if_pos]
    exact ih fun d hd => h d (List.mem_cons_of_mem c hd)

theorem dropWhile_head_false (p : Char → Bool) (l : List Char) :
    l.dropWhile p = [] ∨
      ∃ c cs, l.dropWhile p = c :: cs ∧ p c = false := by
  induction l with
  | nil => left; rfl
  | cons c cs ih =>
    by_cases h : p c = true
    · rw [List.dropWhile_cons, h]
      simpa using ih
    · right
      refine ⟨c, cs, ?_, by simpa using h⟩
      rw [List.dropWhile_cons]
      simp [h]

theorem tryHref_sound {l v rest : List Char}
    (h : tryHref l = some (v, rest)) :
    ∃ q : List Char,
      (q = [] ∨ q = [aposC] ∨ q = ['"'])
      ∧ v ≠ []
      ∧ (∀ c ∈ v, hrefAllowed c = true)
      ∧ (rest = [] ∨ ∃ c cs, rest = c :: cs ∧ hrefAllowed c = false)
      ∧ l = hrefMarker ++ q ++ v ++ rest := by
  unfold tryHref at h
  by_cases hpre : hrefMarker.isPrefixOf l
  case neg => simp [hpre] at h
  rw [if_pos hpre] at h
  have hl : l = hrefMarker ++ l.drop 5 := by
    rcases List.isPrefixOf_iff_prefix.1 hpre with ⟨t, ht⟩
    have hdrop : l.drop 5 = t := by
      rw [← ht]
      exact List.drop_left hrefMarker t
    rw [hdrop, ht]
  cases hr : l.drop 5 with
  | nil => rw [hr] at h; exact absurd h (by simp)
  | cons c cs =>
    rw [hr] at h
    rw [hr] at hl
    by_cases hq : (c == aposC || c == '"') = true
    · simp only [hq, if_pos] at h
      by_cases hemp : (cs.takeWhile hrefAllowed).isEmpty = true
      · rw [if_pos hemp] at h; exact absurd h (by simp)
      · rw [if_neg hemp] at h
        rcases Prod.mk.injEq _ _ _ _ ▸ Option.some.injEq _ _ ▸ h with ⟨hv, hrest⟩
        refine ⟨[c], ?_, ?_, ?_, ?_, ?_⟩
        · rcases Bool.or_eq_true_iff.1 hq with h1 | h1
          · right; left; rw [beq_iff_eq.1 h1]
          · right; right; rw [beq_iff_eq.1 h1]
        · intro hveq
          rw [← hv] at hveq
          rw [hveq] at hemp
          simp at hemp
        · intro d hd
          rw [← hv] at hd
          exact List.mem_takeWhile_imp hd
        · rw [← hrest]
          exact dropWhile_head_false hrefAllowed cs
        · rw [hl, ← hv, ← hrest]
          simp [List.takeWhile_append_dropWhile]
    · simp only [hq, if_neg, Bool.not_eq_true] at h
      by_cases hemp : ((c :: cs).takeWhile hrefAllowed).isEmpty = true
      · rw [if_pos hemp] at h; exact absurd h (by simp)
      · rw [if_neg hemp] at h
        rcases Prod.mk.injEq _ _ _ _ ▸ Option.some.injEq _ _ ▸ h with ⟨hv, hrest⟩
        refine ⟨[], Or.inl rfl, ?_, ?_, ?_, ?_⟩
        · intro hveq
          rw [← hv] at hveq
          rw [hveq] at hemp
          simp at hemp
        · intro d hd
          rw [← hv] at hd
          exact List.mem_takeWhile_imp hd
        · rw [← hrest]
          exact dropWhile_head_false hrefAllowed (c :: cs)
        · rw [hl, ← hv, ← hrest]
          simp [List.takeWhile_append_dropWhile]

theorem tryHref_rest_length {l v rest : List Char}
    (h : tryHref l = some (v, rest)) : rest.length < l.length := by
  rcases tryHref_sound h with ⟨q, _, hv, _, _, hl⟩
  have hvpos : 0 < v.length := List.length_pos.2 hv
  rw [hl]
  simp only [List.length_append, hrefMarker, List.length_cons, List.length_nil]
  omega

theorem hrefOccur_cons (c : Char) (t v : List Char)
    (h : hrefOccur t v) : hrefOccur (c :: t) v := by
  rcases h with ⟨pre, q, rest, h1, h2, h3, h4, h5⟩
  exact ⟨c :: pre, q, rest, h1, h2, h3, h4, by rw [h5]; rfl⟩

theorem scanHrefCore_sound :
    ∀ (fuel : Nat) (l : List Char), l.length ≤ fuel →
      ∀ v ∈ scanHrefCore fuel l, hrefOccur l v := by
  intro fuel
  induction fuel with
  | zero =>
    intro l _ v hv
    simp [scanHrefCore] at hv
  | succ f ih =>
    intro l hlen v hv
    cases l with
    | nil => simp [scanHrefCore] at hv
    | cons c cs =>
      rw [scanHrefCore] at hv
      cases htry : tryHref (c :: cs) with
      | some p =>
        rcases p with ⟨v0, rest⟩
        rw [htry] at hv
        rcases List.mem_cons.1 hv with rfl | hmem
        · rcases tryHref_sound htry with ⟨q, h1, h2, h3, h4, h5⟩
          exact ⟨[], q, rest, h1, h2, h3, h4, by rw [h5]; rfl⟩
        · have hrest : rest.length ≤ f := by
            have := tryHref_rest_length htry
            simp only [List.length_cons] at this hlen
            omega
          have hocc := ih rest hrest v hmem
          rcases hocc with ⟨pre, q, rest', h1, h2, h3, h4, h5⟩
          rcases tryHref_sound htry with ⟨q0, _, _, _, _, hl0⟩
          refine ⟨hrefMarker ++ q0 ++ v0 ++ pre, q, rest', h1, h2, h3, h4, ?_⟩
          rw [hl0, h5]
          simp [List.append_assoc]
      | none =>
        rw [htry] at hv
        have hcs : cs.length ≤ f := by
          simp only [List.length_cons] at hlen
          omega
        exact hrefOccur_cons c cs v (ih cs hcs v hv)

theorem scanHref_sound (l : List Char) : ∀ v ∈ scanHref l, hrefOccur l v :=
  scanHrefCore_sound l.length l (Nat.le_refl _)

theorem hrefAllowed_not_quote {c : Char} (h : hrefAllowed c = true) :
    (c == aposC || c == '"') = false := by
  unfold hrefAllowed at h
  rcases Bool.or_eq_false_iff.1 (Bool.or_eq_false_iff.1
    (Bool.or_eq_false_iff.1 (Bool.not_eq_true' .. ▸ h)).1).1 with ⟨h1, h2⟩
  simp [h1, h2]

theorem tryHref_complete {l v q rest : List Char}
    (hq : q = [] ∨ q = [aposC] ∨ q = ['"'])
    (hv : v ≠ []) (hall : ∀ c ∈ v, hrefAllowed c = true)
    (_hrest : rest = [] ∨ ∃ c cs, rest = c :: cs ∧ hrefAllowed c = false)
    (hl : l = hrefMarker ++ q ++ v ++ rest) :
    tryHref l ≠ none := by
  have hpre : hrefMarker.isPrefixOf l := by
    rw [ List.isPrefixOf_iff_prefix, hl]
    exact ⟨q ++ v ++ rest, by simp [List.append_assoc]⟩
  have hdrop : l.drop 5 = q ++ v ++ rest := by
    rw [hl]
    have : hrefMarker ++ q ++ v ++ rest = hrefMarker ++ (q ++ v ++ rest) := by
      simp [List.append_assoc]
    rw [this]
    exact List.drop_left hrefMarker _
  have htake : (v ++ rest).takeWhile hrefAllowed =
      v ++ rest.takeWhile hrefAllowed :=
    takeWhile_all_append hrefAllowed v rest hall
  have htake_ne : ((v ++ rest).takeWhile hrefAllowed).isEmpty = false := by
    rw [htake]
    cases v with
    | nil => exact absurd rfl hv
    | cons a as => rfl
  cases v with
  | nil => exact absurd rfl hv
  | cons a as =>
    have ha : hrefAllowed a = true := hall a (List.mem_cons_self a as)
    have haq : (a == aposC || a == '"') = false := hrefAllowed_not_quote ha
    unfold tryHref
    rw [if_pos hpre, hdrop]
    rcases hq with rfl | rfl | rfl
    · simp only [List.nil_append]
      rw [List.cons_append]
      simp only [haq, if_neg, Bool.false_eq_true, not_false_iff]
      rw [← List.cons_append, htake_ne]
      simp
    · simp only [List.cons_append, List.nil_append]
      have : (aposC == aposC || aposC == '"') = true := by simp
      rw [this]
      simp only [if_pos]
      rw [← List.cons_append, htake_ne]
      simp
    · simp only [List.cons_append, List.nil_append]
      have : ('"' == aposC || '"' == '"') = true := by simp
      rw [this]
      simp only [if_pos]
      rw [← List.cons_append, htake_ne]
      simp

theorem scanHrefCore_complete :
    ∀ (fuel : Nat) (l : List Char), l.length ≤ fuel →
      (∃ v, hrefOccur l v) → scanHrefCore fuel l ≠ [] := by
  intro fuel
  induction fuel with
  | zero =>
    intro l hlen hex
    rcases hex with ⟨v, pre, q, rest, _, _, _, _, h5⟩
    have hnil : l = [] := List.length_eq_zero.1 (Nat.le_zero.1 hlen)
    rw [hnil] at h5
    have hlen5 := congrArg List.length h5
    simp only [List.length_append, List.length_nil, hrefMarker,
      List.length_cons] at hlen5
    omega
  | succ f ih =>
    intro l hlen hex
    cases l with
    | nil =>
      rcases hex with ⟨v, pre, q, rest, _, _, _, _, h5⟩
      have hlen5 := congrArg List.length h5
      simp only [List.length_append, List.length_nil, hrefMarker,
        List.length_cons] at hlen5
      omega
    | cons c cs =>
      rw [scanHrefCore]
      cases htry : tryHref (c :: cs) with
      | some p =>
        rcases p with ⟨v0, rest⟩
        simp
      | none =>
        rcases hex with ⟨v, pre, q, rest, h1, h2, h3, h4, h5⟩
        cases pre with
        | nil =>
          exact absurd htry (tryHref_complete h1 h2 h3 h4 (by simpa using h5))
        | cons p ps =>
          injection h5 with hc hcs
          have hlen' : cs.length ≤ f := by
            simp only [List.length_cons] at hlen
            omega
          exact ih cs hlen' ⟨v, ps, q, rest, h1, h2, h3, h4, hcs⟩

/-- Claim C8 (amended): every value returned by get_links is an occurrence
in the input of the marker, an optional quote, and a maximal nonempty run
of characters other than quotes, the space character and the greater-than
sign; whenever such an occurrence exists at all, the returned set is
non-empty; on the empty string the result is the empty set.  The function
is pure by construction. -/
theorem get_links_spec :
    (∀ html v : String, v ∈ get_links_set html → hrefOccur html.data v.data)
  ∧ (∀ html : String, (∃ v, hrefOccur html.data v) → get_links_set html ≠ ∅)
  ∧ get_links_set "" = ∅ := by
  refine ⟨?_, ?_, by decide⟩
  · intro html v hv
    rw [get_links_set, List.mem_toFinset] at hv
    rcases List.mem_map.1 hv with ⟨lv, hlv, rfl⟩
    simpa using scanHref_sound html.data lv hlv
  · intro html hex hempty
    rw [get_links_set, List.toFinset_eq_empty_iff] at hempty
    have hnil : scanHref html.data = [] := by
      rw [get_links] at hempty
      exact List.map_eq_nil_iff.1 hempty
    exact scanHrefCore_complete html.data.length html.data (Nat.le_refl _)
      hex hnil

/-- Witness for C8: the doctest input, on which page.html is returned and
is certified to be an href occurrence. -/
theorem get_links_spec_witness :
    "page.html" ∈ get_links_set "<a href=\"page.html\">Link</a>"
  ∧ hrefOccur ("<a href=\"page.html\">Link</a>" : String).data
      ("page.html" : String).data :=
  ⟨by decide,
   get_links_spec.1 "<a href=\"page.html\">Link</a>" "page.html" (by decide)⟩

/-- Counterexample to claim C8 as stated: the negated character class of
the pattern contains only the SPACE character, not all whitespace, so a
value with an embedded tab is returned whole; and an occurrence whose
marker lies inside an earlier match (the final x of href=href=x) is present
in the input but absent from the result, so the result is not exactly the
set of href values present. -/
theorem get_links_counterexample :
    get_links "href=a\tb" = ["a\tb"]
  ∧ (∃ c ∈ ("a\tb" : String).data, c.isWhitespace = true)
  ∧ get_links "href=href=x" = ["href=x"]
  ∧ hrefOccur ("href=href=x" : String).data ("x" : String).data
  ∧ "x" ∉ get_links "href=href=x" := by
  refine ⟨by decide, ⟨'\t', by decide, by decide⟩, by decide, ?_, by decide⟩
  exact ⟨"href=".data, [], [], Or.inl rfl, by decide, by decide, Or.inl rfl,
    by decide⟩

theorem map_cellNum_sum_eq (rows : List Row) :
    (rows.map fun r => cellNum (r Col.trip_minutes)).sum =
      (tripMinutesValues rows).sum := by
  induction rows with
  | nil => rfl
  | cons r rs ih =>
    rw [List.map_cons, List.sum_cons, ih]
    unfold tripMinutesValues
    rw [List.filterMap_cons]
    cases h : r Col.trip_minutes <;> simp [cellNum, h]

/-- Claim C9: total_time is the sum of the non-null trip_minutes values
divided by 60 (missing durations contribute zero), and on the cleaned
fixture it equals 36.49 / 60 exactly. -/
theorem total_time_spec :
    (∀ rows : List Row, total_time rows = (tripMinutesValues rows).sum / 60)
  ∧ total_time (clean fake_csv_rows) = (36.49 : ℚ) / 60 := by
  constructor
  · intro rows
    unfold total_time
    rw [map_cellNum_sum_eq]
  · have hmap : ((clean fake_csv_rows).map fun r => cellNum (r Col.trip_minutes)) =
        [mkRat 780 100, mkRat 2028 100, mkRat 678 100, mkRat 163 100] := by
      decide
    unfold total_time
    rw [hmap]
    simp only [List.sum_cons, List.sum_nil]
    norm_num [Rat.mkRat_eq_divInt]

/-- Claim C10: on the empty table usage_from_most_popular_station fails
(int of a NaN maximum raises, modelled as none) while most_popular_stations
returns the empty set, so a non-empty table is an unstated precondition of
the former only. -/
theorem empty_table_behavior :
    usage_from_most_popular_station ([] : List Row) = none
  ∧ most_popular_stations ([] : List Row) = ∅ :=
  ⟨rfl, rfl⟩
